import Mathlib

/-!
Verification of the gllm export pipeline (TypeScript) against its
natural-language specification, via a shallow embedding in Lean.

The embedding covers:
- the persisted resumption state and its loader (`IncrementalManager`,
  `loadState` / `getInitialState` / membership and marking operations),
  including a small model of the JavaScript values produced by
  `JSON.parse` and the coercions `new Set(x)` / `new Date(x)`;
- the branch/commit/file processors (`ParallelBranchProcessor`), modelled
  as pure functions from an environment (the `GitService` call results)
  and the nullable in-memory state to a result, an updated state and a
  trace of effects (provider calls, artifact writes, secret scans,
  progress events, state saves);
- the top-level `ExportService.export` driver.

Concurrency: the source interleaves I/O-bound tasks cooperatively via
`Promise.all`.  `Promise.all` starts every task of a batch, so each task
runs to completion even when a sibling rejects, and the combined promise
rejects with the first rejection; the embedding runs the tasks of a batch
in order, applies every task's state updates and effects, and propagates
the first error, which yields the same final state and result.
-/

set_option maxHeartbeats 1000000

namespace Gllm

/-- JavaScript values as produced by `JSON.parse` (plus `undefined`,
which arises from missing-property access). -/
inductive JsValue where
  | undefined
  | null
  | bool (b : Bool)
  | num (n : Int)
  | str (s : String)
  | arr (elems : List JsValue)
  | obj (fields : List (String × JsValue))

mutual

/-- Structural equality of JS values (the SameValueZero comparison used
by `Set`, restricted to JSON-representable data, where it coincides with
structural equality). -/
def JsValue.beq : JsValue → JsValue → Bool
  | .undefined, .undefined => true
  | .null, .null => true
  | .bool a, .bool b => a == b
  | .num a, .num b => a == b
  | .str a, .str b => a == b
  | .arr xs, .arr ys => JsValue.beqList xs ys
  | .obj xs, .obj ys => JsValue.beqFields xs ys
  | _, _ => false

def JsValue.beqList : List JsValue → List JsValue → Bool
  | [], [] => true
  | a :: as, b :: bs => JsValue.beq a b && JsValue.beqList as bs
  | _, _ => false

def JsValue.beqFields : List (String × JsValue) → List (String × JsValue) → Bool
  | [], [] => true
  | (k, a) :: as, (l, b) :: bs => k == l && JsValue.beq a b && JsValue.beqFields as bs
  | _, _ => false

end

instance : BEq JsValue := ⟨JsValue.beq⟩

/-- `Set.prototype.has` on the insertion-ordered, deduplicated list that
models a JS `Set`. -/
def jsSetHas : List JsValue → JsValue → Bool
  | [], _ => false
  | x :: rest, v => JsValue.beq x v || jsSetHas rest v

/-- `Set.prototype.add`: appends unless already present. -/
def jsSetAdd (s : List JsValue) (v : JsValue) : List JsValue :=
  if jsSetHas s v then s else s ++ [v]

/-- `new Set(iterable elements)`: inserts in order, deduplicating. -/
def jsSetOfList (xs : List JsValue) : List JsValue :=
  xs.foldl jsSetAdd []

/-- `new Set(x)`: `undefined`/`null` give the empty set; an array
iterates its elements; a string iterates its characters; numbers,
booleans and plain objects are not iterable and throw a `TypeError`. -/
def jsNewSet : JsValue → Except String (List JsValue)
  | .undefined => .ok []
  | .null => .ok []
  | .arr xs => .ok (jsSetOfList xs)
  | .str s => .ok (jsSetOfList (s.toList.map (fun c => .str (String.singleton c))))
  | .bool _ => .error ("boolean is not iterable")
  | .num _ => .error ("number is not iterable")
  | .obj _ => .error ("object is not iterable")

/-- Property access `v[k]`: throws on `undefined`/`null`, looks the key
up on objects (later duplicate keys from `JSON.parse` win), and yields
`undefined` on every other primitive. -/
def jsGet : JsValue → String → Except String JsValue
  | .undefined, k => .error ("cannot read properties of undefined: " ++ k)
  | .null, k => .error ("cannot read properties of null: " ++ k)
  | .obj fields, k => .ok ((fields.reverse.lookup k).getD .undefined)
  | _, _ => .ok .undefined

/-- A JS `Date`, kept symbolic: either constructed from a parsed value
(`new Date(x)`, possibly an invalid date) or the current instant
(`new Date()` at abstract time `t`). -/
inductive JsDate where
  | fromValue (v : JsValue)
  | now (t : Nat)

/-- The persisted resumption state (`IncrementalState` in `types`):
last-export timestamp plus the two JS `Set`s, modelled as
insertion-ordered deduplicated lists. -/
structure IncrementalState where
  lastExport : JsDate
  processedCommits : List JsValue
  exportedBranches : List JsValue

/-- The three observable conditions of the state file on disk: absent,
present but rejected by `JSON.parse`, or parsed to a value. -/
inductive StateFile where
  | missing
  | malformed
  | wellFormed (v : JsValue)

/-- The body of the `try` block of `IncrementalManager.loadState` once
`JSON.parse` has produced `v`: reads the three properties and rebuilds
the sets; `new Date` never throws, `new Set` may. -/
def loadStateOfJson (v : JsValue) : Except String IncrementalState := do
  let le ← jsGet v ("lastExport")
  let pc ← jsGet v ("processedCommits")
  let eb ← jsGet v ("exportedBranches")
  let pcSet ← jsNewSet pc
  let ebSet ← jsNewSet eb
  .ok { lastExport := .fromValue le, processedCommits := pcSet, exportedBranches := ebSet }

/-- `IncrementalManager.loadState`: `null` when the file is missing or
anything in the `try` block throws (parse failure, bad property access,
non-iterable set source). -/
def loadState (file : StateFile) : Option IncrementalState :=
  match file with
  | .missing => none
  | .malformed => none
  | .wellFormed v =>
    match loadStateOfJson v with
    | .ok st => some st
    | .error _ => none

/-- `IncrementalManager.getInitialState`: fresh timestamp, both sets
empty. -/
def getInitialState (now : Nat) : IncrementalState :=
  { lastExport := .now now, processedCommits := [], exportedBranches := [] }

/-- The state installed at run start (`ExportService.export` line 47):
`loadState() ?? getInitialState()`. -/
def runStartLoad (file : StateFile) (now : Nat) : IncrementalState :=
  (loadState file).getD (getInitialState now)

/-- The manager's nullable `state` field. -/
abbrev MState := Option IncrementalState

/-- `IncrementalManager.isCommitProcessed`:
`this.state?.processedCommits.has(sha) ?? false`. -/
def isCommitProcessed (st : MState) (sha : String) : Bool :=
  match st with
  | some s => jsSetHas s.processedCommits (.str sha)
  | none => false

/-- `IncrementalManager.isBranchExported`:
`this.state?.exportedBranches.has(branch) ?? false`. -/
def isBranchExported (st : MState) (branch : String) : Bool :=
  match st with
  | some s => jsSetHas s.exportedBranches (.str branch)
  | none => false

/-- `IncrementalManager.markCommitProcessed`: in-memory insertion; a
no-op when no state is loaded. -/
def markCommitProcessed (st : MState) (sha : String) : MState :=
  match st with
  | some s => some { s with processedCommits := jsSetAdd s.processedCommits (.str sha) }
  | none => none

/-- `IncrementalManager.markBranchExported`. -/
def markBranchExported (st : MState) (branch : String) : MState :=
  match st with
  | some s => some { s with exportedBranches := jsSetAdd s.exportedBranches (.str branch) }
  | none => none

/-- `IncrementalManager.getUnprocessedCommits`: order-preserving filter;
the input list unchanged when no state is loaded. -/
def getUnprocessedCommits (st : MState) (commits : List String) : List String :=
  match st with
  | none => commits
  | some s => commits.filter (fun sha => !(jsSetHas s.processedCommits (.str sha)))

/-- `IncrementalManager.shouldSkipBranch`. -/
def shouldSkipBranch (st : MState) (branch : String) (forceUpdate : Bool) : Bool :=
  if forceUpdate then false else isBranchExported st branch

/-- The resolved run options (`Options` in `types`). -/
structure Options where
  out : String
  branches : String
  commitsPerBranch : Nat
  maxFileSize : Nat
  includeFiles : Bool
  exclude : String
  secretScan : Bool

/-- Commit metadata as returned by `GitService.getCommitInfo`. -/
structure CommitInfo where
  sha : String
  author_name : String
  author_email : String
  date : String
  message : String
  parents : List String

/-- `GitRepository` in `types`. -/
structure GitRepository where
  name : String
  topLevel : String
  branches : List String
  tags : List String

/-- `BranchExportResult` in `types`. -/
structure BranchExportResult where
  branch : String
  commits : List String
  success : Bool
  error : Option String

/-- The Source Control Provider environment: the results of the
`GitService` calls the pipeline makes.  Each call can fail with a
descriptive error (`run` wraps subprocess failures into thrown
`Error`s); `getBlobSize` catches internally and yields `null`. -/
structure GitEnv where
  repositoryInfo : Except String GitRepository
  commitsOfBranch : String → Nat → Except String (List String)
  commitInfo : String → Except String CommitInfo
  commitPatch : String → Except String String
  treeFiles : String → Except String (List String)
  blobSize : String → String → Option Nat
  blobShow : String → String → Except String String

/-- A secret pattern: a category name plus the (abstracted) `RegExp.test`
predicate. -/
structure SecretPattern where
  name : String
  test : String → Bool

/-- `SecretScanner.scanForSecrets`: the names of the patterns whose test
matches, in pattern order. -/
def scanForSecrets (patterns : List SecretPattern) (text : String) : List String :=
  (patterns.filter (fun p => p.test text)).map (fun p => p.name)

/-- Observable actions of one run: provider calls, artifact writes,
secret scans, progress events and state saves, in program order. -/
inductive Effect where
  | gitCommitsOfBranch (branch : String) (limit : Nat)
  | gitCommitInfo (sha : String)
  | gitCommitPatch (sha : String)
  | gitTreeFiles (sha : String)
  | gitBlobSize (sha : String) (path : String)
  | gitBlobShow (sha : String) (path : String)
  | writeFile (path : String) (content : String)
  | writeAlert (path : String) (content : String)
  | writeBranchSummary (branch : String) (content : String)
  | writeCommit (sha : String) (content : String)
  | scanSecrets (text : String)
  | emitProgress (total : Nat) (completed : Nat)
  | writeReadme (name : String)
  | writeTags (tags : List String)
  | writeIndex (branches : List String)
  | saveState (st : IncrementalState)

/-- A character matched by the separator class `[/\\\s]` of
`utils.safeName`. -/
def isSepChar (c : Char) : Bool :=
  c = '/' ∨ c = '\\' ∨ c.isWhitespace

/-- `utils.safeName`, first stage: collapse every maximal run of
slashes, backslashes and whitespace into a double underscore.  The flag
records whether the previous character belonged to a separator run. -/
def collapseSepsAux : Bool → List Char → List Char
  | _, [] => []
  | inRun, c :: rest =>
    if isSepChar c then
      if inRun then collapseSepsAux true rest
      else '_' :: '_' :: collapseSepsAux true rest
    else c :: collapseSepsAux false rest

def collapseSeps (l : List Char) : List Char :=
  collapseSepsAux false l

/-- `utils.safeName`: collapse separator runs, then drop every character
outside `[0-9A-Za-z._\-@]`. -/
def safeName (s : String) : String :=
  String.mk ((collapseSeps s.toList).filter
    (fun c => c.isAlphanum ∨ c = '.' ∨ c = '_' ∨ c = '-' ∨ c = '@'))

/-- `utils.guessLangByExt`: language tag from the lower-cased last
dot-separated component, empty when unknown. -/
def guessLangByExt (path : String) : String :=
  let ext := ((path.splitOn (".")).getLastD ("")).toLower
  if ext = "py" then "python"
  else if ext = "js" then "javascript"
  else if ext = "ts" then "typescript"
  else if ext = "java" then "java"
  else if ext = "go" then "go"
  else if ext = "rb" then "ruby"
  else if ext = "rs" then "rust"
  else if ext = "c" then "c"
  else if ext = "cpp" then "cpp"
  else if ext = "h" then "c"
  else if ext = "json" then "json"
  else if ext = "md" then "markdown"
  else if ext = "sh" then "bash"
  else if ext = "yml" then "yaml"
  else if ext = "yaml" then "yaml"
  else if ext = "html" then "html"
  else if ext = "css" then "css"
  else ""

/-- Splitting on the JS regular expression `/\r?\n/`. -/
def jsSplitLines (s : String) : List String :=
  (s.splitOn ("\n")).map (fun l => if l.endsWith ("\r") then l.dropRight 1 else l)

/-- `message.split(/\r?\n/)[0] ?? ""`. -/
def firstLine (s : String) : String :=
  (jsSplitLines s).headD ("")

/-- The exclusion prefixes of `processCommit`: an empty (falsy) string
yields no prefixes, otherwise split on commas, trim, drop empties. -/
def parseExclude (exclude : String) : List String :=
  if exclude = "" then []
  else ((exclude.splitOn (",")).map String.trim).filter (fun e => e ≠ "")

/-- `GitService.getBlobContent`: fetch the size first (`null` on size
failure), refuse blobs over `maxBytes`, then fetch the content; every
failure is caught and becomes `null`.  Returns the content alongside the
provider calls made. -/
def getBlobContent (env : GitEnv) (sha filePath : String) (maxBytes : Nat) :
    Option String × List Effect :=
  match env.blobSize sha filePath with
  | none => (none, [.gitBlobSize sha filePath])
  | some size =>
    if size > maxBytes then (none, [.gitBlobSize sha filePath])
    else
      match env.blobShow sha filePath with
      | .ok content => (some content, [.gitBlobSize sha filePath, .gitBlobShow sha filePath])
      | .error _ => (none, [.gitBlobSize sha filePath, .gitBlobShow sha filePath])

/-- The alert artifact content (`ParallelBranchProcessor.processFile`,
line 205): built from the file path, the commit id and the matched
category names only. -/
def buildAlertContent (filePath sha : String) (hits : List String) : String :=
  "Potential secrets detected in " ++ filePath ++ " @ " ++ sha ++ ":\n"
    ++ String.intercalate ("\n") hits

/-- `ParallelBranchProcessor.processFile`: early return when snapshot
export is disabled; otherwise fetch the blob, write the snapshot (and
scan it, alerting on hits) or write the skip placeholder.  Never throws
and never touches the incremental state; its observable behaviour is its
effect list. -/
def processFile (env : GitEnv) (patterns : List SecretPattern) (opts : Options)
    (sha filePath : String) : List Effect :=
  if !opts.includeFiles then []
  else
    let blobFx := getBlobContent env sha filePath opts.maxFileSize
    let fnameSafe := safeName filePath
    let link := "files/" ++ fnameSafe ++ "@" ++ sha ++ ".md"
    match blobFx.1 with
    | some blob =>
      let lang := guessLangByExt filePath
      let fileMd := String.intercalate ("\n")
        ["# Snapshot of `" ++ filePath ++ "` @ " ++ sha,
         "Commit: " ++ sha,
         "```" ++ lang,
         blob,
         "```"]
      let fx := blobFx.2 ++ [.writeFile link fileMd]
      if opts.secretScan then
        let hits := scanForSecrets patterns blob
        let fx := fx ++ [.scanSecrets blob]
        if hits.isEmpty then fx
        else
          fx ++ [.writeAlert ("alerts/" ++ fnameSafe ++ "@" ++ sha ++ ".secret.txt")
                   (buildAlertContent filePath sha hits)]
      else fx
    | none =>
      let note := "# Snapshot skipped (too large or binary) `" ++ filePath ++ "` @ " ++ sha
        ++ "\nSize exceeded " ++ toString opts.maxFileSize ++ " bytes or can't read blob."
      blobFx.2 ++ [.writeFile link note]

/-- `ParallelBranchProcessor.buildCommitMetadata`. -/
def buildCommitMetadata (opts : Options) (info : CommitInfo) (branch : String)
    (files : List String) : List String :=
  ["---",
   "repo: " ++ opts.out,
   "branch: " ++ branch,
   "commit: " ++ info.sha,
   "author: " ++ info.author_name ++ " <" ++ info.author_email ++ ">",
   "date: " ++ info.date]
  ++ (if info.parents.isEmpty then [] else "parents:" :: info.parents.map (fun p => "  - " ++ p))
  ++ ["files_changed: " ++ toString files.length,
      "summary: " ++ firstLine info.message,
      "---\n"]

/-- `ParallelBranchProcessor.processCommit`: fetch metadata, diff and
tree, filter by exclusion prefixes, snapshot each retained file, write
the commit document, and only then mark the commit processed.  The
source's `try`/`catch` logs and rethrows, so errors propagate unchanged
to the enclosing branch. -/
def processCommit (env : GitEnv) (patterns : List SecretPattern) (opts : Options)
    (sha branch : String) (st : MState) :
    Except String Unit × MState × List Effect :=
  match env.commitInfo sha with
  | .error e => (.error e, st, [.gitCommitInfo sha])
  | .ok info =>
    match env.commitPatch sha with
    | .error e => (.error e, st, [.gitCommitInfo sha, .gitCommitPatch sha])
    | .ok patch =>
      match env.treeFiles sha with
      | .error e => (.error e, st, [.gitCommitInfo sha, .gitCommitPatch sha, .gitTreeFiles sha])
      | .ok files =>
        let excludeArr := parseExclude opts.exclude
        let filteredFiles := files.filter (fun f => !excludeArr.any (fun e => f.startsWith e))
        let metaLines := buildCommitMetadata opts info branch filteredFiles
          ++ ["# Commit " ++ info.sha ++ "\n",
              "**Author:** " ++ info.author_name ++ "  \n**Date:** " ++ info.date
                ++ "\n\n## Message\n" ++ info.message ++ "\n\n---\n",
              "## Patch (diff)\n",
              "```diff\n",
              patch,
              "\n```\n",
              "## Files snapshot (links)\n"]
        let fileFx := (filteredFiles.map (fun f => processFile env patterns opts sha f)).flatten
        let linkLines := filteredFiles.map
          (fun f => "- `" ++ f ++ "` — snapshot: `files/" ++ safeName f ++ "@" ++ sha ++ ".md`")
        let doc := String.intercalate ("\n") (metaLines ++ linkLines)
        (.ok (), markCommitProcessed st sha,
          [.gitCommitInfo sha, .gitCommitPatch sha, .gitTreeFiles sha]
            ++ fileFx ++ [.writeCommit sha doc])

/-- The summary-line loop of `exportBranchSummary`: one
`getCommitInfo` per listed commit, aborting on the first failure. -/
def summaryLoop (env : GitEnv) (commits : List String) :
    Except String (List String) × List Effect :=
  match commits with
  | [] => (.ok [], [])
  | sha :: rest =>
    match env.commitInfo sha with
    | .error e => (.error e, [.gitCommitInfo sha])
    | .ok info =>
      let restRun := summaryLoop env rest
      (restRun.1.map (fun ls =>
          ("- " ++ info.sha ++ ": " ++ firstLine info.message ++ " (" ++ info.author_name ++ ")") :: ls),
        .gitCommitInfo sha :: restRun.2)

/-- `ParallelBranchProcessor.exportBranchSummary`: the branch page
listing every candidate commit. -/
def exportBranchSummary (env : GitEnv) (branch : String) (commits : List String) :
    Except String Unit × List Effect :=
  let header := ["# Branch " ++ branch ++ "\n",
                 "Commits (last " ++ toString commits.length ++ "):\n"]
  match summaryLoop env commits with
  | (.ok lines, fx) =>
    (.ok (), fx ++ [.writeBranchSummary (safeName branch)
        (String.intercalate ("\n") (header ++ lines))])
  | (.error e, fx) => (.error e, fx)

/-- One commit sub-batch under `Promise.all`: every commit of the batch
has started, so each runs to completion (its state updates and effects
apply even when a sibling rejects); the combined result is the first
error if any commit failed. -/
def runCommitBatch (env : GitEnv) (patterns : List SecretPattern) (opts : Options)
    (batch : List String) (branch : String) (st : MState) :
    Except String Unit × MState × List Effect :=
  match batch with
  | [] => (.ok (), st, [])
  | sha :: rest =>
    let head := processCommit env patterns opts sha branch st
    let tail := runCommitBatch env patterns opts rest branch head.2.1
    ((match head.1 with | .error e => .error e | .ok _ => tail.1),
      tail.2.1, head.2.2 ++ tail.2.2)

/-- The sequential loop over commit sub-batches: `await Promise.all`
throws at the first failing batch, so later batches never start. -/
def runCommitBatches (env : GitEnv) (patterns : List SecretPattern) (opts : Options)
    (batches : List (List String)) (branch : String) (st : MState) :
    Except String Unit × MState × List Effect :=
  match batches with
  | [] => (.ok (), st, [])
  | b :: rest =>
    let head := runCommitBatch env patterns opts b branch st
    match head.1 with
    | .error e => (.error e, head.2.1, head.2.2)
    | .ok _ =>
      let tail := runCommitBatches env patterns opts rest branch head.2.1
      (tail.1, tail.2.1, head.2.2 ++ tail.2.2)

/-- Fuelled worker for `chunkArray`: with positive chunk size, each step
consumes at least one element, so a fuel of `l.length` suffices. -/
def chunkArrayGo : Nat → List α → Nat → List (List α)
  | 0, _, _ => []
  | _ + 1, [], _ => []
  | f + 1, a :: l, n => (a :: l).take n :: chunkArrayGo f ((a :: l).drop n) n

/-- `ParallelBranchProcessor.chunkArray`: consecutive slices of size
`chunkSize`.  The source's loop never terminates for `chunkSize = 0`
(`i += 0`); configuration validation enforces a positive concurrency, so
the model returns `[]` on that unreached input. -/
def chunkArray (l : List α) (n : Nat) : List (List α) :=
  if n = 0 then [] else chunkArrayGo l.length l n

/-- `ParallelBranchProcessor.processBranch`: the incremental fast path,
the no-new-commits path, and the full path (summary, commit sub-batches
of size `min 10 concurrency`, mark branch exported); the enclosing
`try`/`catch` turns any error into a failed outcome with an empty commit
list, keeping whatever state mutations had already happened. -/
def processBranch (env : GitEnv) (patterns : List SecretPattern) (opts : Options)
    (concurrency : Nat) (branch : String) (forceUpdate : Bool) (st : MState) :
    BranchExportResult × MState × List Effect :=
  if shouldSkipBranch st branch forceUpdate then
    ({ branch := branch, commits := [], success := true, error := none }, st, [])
  else
    match env.commitsOfBranch branch opts.commitsPerBranch with
    | .error e =>
      ({ branch := branch, commits := [], success := false, error := some e }, st,
        [.gitCommitsOfBranch branch opts.commitsPerBranch])
    | .ok allCommits =>
      let unprocessed := getUnprocessedCommits st allCommits
      if unprocessed.isEmpty then
        ({ branch := branch, commits := [], success := true, error := none },
          markBranchExported st branch,
          [.gitCommitsOfBranch branch opts.commitsPerBranch])
      else
        match exportBranchSummary env branch allCommits with
        | (.error e, fx) =>
          ({ branch := branch, commits := [], success := false, error := some e }, st,
            .gitCommitsOfBranch branch opts.commitsPerBranch :: fx)
        | (.ok _, fx) =>
          let batches := chunkArray unprocessed (min 10 concurrency)
          let run := runCommitBatches env patterns opts batches branch st
          match run.1 with
          | .error e =>
            ({ branch := branch, commits := [], success := false, error := some e },
              run.2.1, .gitCommitsOfBranch branch opts.commitsPerBranch :: (fx ++ run.2.2))
          | .ok _ =>
            ({ branch := branch, commits := unprocessed, success := true, error := none },
              markBranchExported run.2.1 branch,
              .gitCommitsOfBranch branch opts.commitsPerBranch :: (fx ++ run.2.2))

/-- One branch batch under `Promise.all`.  `processBranch` never rejects
(its whole body is inside `try`/`catch`), so the `.catch` fallback in
`processBranches` is dead code and every task contributes its outcome,
collected in input order. -/
def runBranchBatch (env : GitEnv) (patterns : List SecretPattern) (opts : Options)
    (concurrency : Nat) (batch : List String) (forceUpdate : Bool) (st : MState) :
    List BranchExportResult × MState × List Effect :=
  match batch with
  | [] => ([], st, [])
  | b :: rest =>
    let head := processBranch env patterns opts concurrency b forceUpdate st
    let tail := runBranchBatch env patterns opts concurrency rest forceUpdate head.2.1
    (head.1 :: tail.1, tail.2.1, head.2.2 ++ tail.2.2)

/-- The batch loop of `processBranches`: after each batch the shared
progress record is bumped by the batch size and re-emitted. -/
def processBranchesLoop (env : GitEnv) (patterns : List SecretPattern) (opts : Options)
    (concurrency : Nat) (batches : List (List String)) (forceUpdate : Bool)
    (total completed : Nat) (st : MState) :
    List BranchExportResult × MState × List Effect :=
  match batches with
  | [] => ([], st, [])
  | batch :: rest =>
    let head := runBranchBatch env patterns opts concurrency batch forceUpdate st
    let tail := processBranchesLoop env patterns opts concurrency rest forceUpdate
      total (completed + batch.length) head.2.1
    (head.1 ++ tail.1, tail.2.1,
      head.2.2 ++ (.emitProgress total (completed + batch.length) :: tail.2.2))

/-- `ParallelBranchProcessor.processBranches`: initial progress event,
then consecutive batches of `concurrency` branches. -/
def processBranches (env : GitEnv) (patterns : List SecretPattern) (opts : Options)
    (concurrency : Nat) (branches : List String) (forceUpdate : Bool) (st : MState) :
    List BranchExportResult × MState × List Effect :=
  let run := processBranchesLoop env patterns opts concurrency
    (chunkArray branches concurrency) forceUpdate branches.length 0 st
  (run.1, run.2.1, .emitProgress branches.length 0 :: run.2.2)

/-- `ExportService.export` branch resolution: the literal `"all"`
expands to the repository's branch list, otherwise split on commas, trim
and drop empties. -/
def resolveBranches (opts : Options) (repo : GitRepository) : List String :=
  if opts.branches = "all" then repo.branches
  else ((opts.branches.splitOn (",")).map String.trim).filter (fun s => s ≠ "")

/-- `ExportService.export`: install the loaded-or-fresh state, fetch
repository identity (any failure is logged and rethrown, with nothing
persisted), write the readme/tags/index artifacts, run the orchestrator,
then save the (aliased, in-place mutated) state exactly once.
`saveState` itself catches I/O errors, so the save is an attempt,
recorded as an effect. -/
def exportRun (env : GitEnv) (patterns : List SecretPattern) (opts : Options)
    (concurrency : Nat) (forceUpdate : Bool) (file : StateFile) (now : Nat) :
    Except String (List BranchExportResult) × MState × List Effect :=
  let state := runStartLoad file now
  let st : MState := some state
  match env.repositoryInfo with
  | .error e => (.error e, st, [])
  | .ok repo =>
    let branches := resolveBranches opts repo
    let run := processBranches env patterns opts concurrency branches forceUpdate st
    (.ok run.1, run.2.1,
      .writeReadme repo.name :: .writeTags repo.tags :: .writeIndex branches
        :: (run.2.2 ++ [.saveState (run.2.1.getD state)]))

/-! ### Observation helpers and concrete demonstration inputs -/

/-- The snapshot artifacts written in a trace. -/
def fileWrites (fx : List Effect) : List (String × String) :=
  fx.filterMap (fun e => match e with | .writeFile p c => some (p, c) | _ => none)

/-- The secret-alert artifacts written in a trace. -/
def alertWrites (fx : List Effect) : List (String × String) :=
  fx.filterMap (fun e => match e with | .writeAlert p c => some (p, c) | _ => none)

/-- The progress events of a trace, as (total, completed) pairs. -/
def progressEvents (fx : List Effect) : List (Nat × Nat) :=
  fx.filterMap (fun e => match e with | .emitProgress t c => some (t, c) | _ => none)

def isSaveEffect : Effect → Bool :=
  fun e => match e with | .saveState _ => true | _ => false

def isScanEffect : Effect → Bool :=
  fun e => match e with | .scanSecrets _ => true | _ => false

/-- Effects that originate inside per-branch work (provider calls,
artifact writes, scans) — as opposed to the orchestration-level effects
(progress events, readme/tags/index writes, state saves). -/
def fromUnitWork : Effect → Bool :=
  fun e => match e with
  | .emitProgress _ _ => false
  | .saveState _ => false
  | .writeReadme _ => false
  | .writeTags _ => false
  | .writeIndex _ => false
  | _ => true

/-- The expected progress events after the initial one: cumulative batch
sizes paired with the constant total. -/
def progressTrace (total completed : Nat) : List Nat → List (Nat × Nat)
  | [] => []
  | s :: rest => (total, completed + s) :: progressTrace total (completed + s) rest

def demoRepo : GitRepository :=
  { name := "repo", topLevel := "/r", branches := ["main"], tags := [] }

def demoInfo (sha : String) : CommitInfo :=
  { sha := sha, author_name := "ann", author_email := "ann@example.org",
    date := "2024-01-01", message := "msg", parents := [] }

/-- A provider on which every call succeeds: one branch, two commits,
empty trees, a 500-byte blob. -/
def baseEnv : GitEnv :=
  { repositoryInfo := .ok demoRepo
    commitsOfBranch := fun _ _ => .ok ["c1", "c2"]
    commitInfo := fun sha => .ok (demoInfo sha)
    commitPatch := fun _ => .ok ("patch")
    treeFiles := fun _ => .ok []
    blobSize := fun _ _ => some 500
    blobShow := fun _ _ => .ok ("content") }

/-- Like `baseEnv` but the diff fetch of commit `c2` fails. -/
def failPatchEnv : GitEnv :=
  { baseEnv with commitPatch := fun sha => if sha = "c2" then .error ("boom") else .ok ("patch") }

/-- Like `baseEnv` but repository identity cannot be fetched. -/
def failRepoEnv : GitEnv :=
  { baseEnv with repositoryInfo := .error ("not a git repository") }

def baseOpts : Options :=
  { out := "out", branches := "all", commitsPerBranch := 50, maxFileSize := 100,
    includeFiles := true, exclude := "", secretScan := true }

def noFilesOpts : Options :=
  { baseOpts with includeFiles := false }

def initialMState : MState := some (getInitialState 0)

/-- A loaded state in which branch `main` is already marked exported. -/
def exportedMState : MState :=
  some { lastExport := .now 0, processedCommits := [], exportedBranches := [.str "main"] }

/-- Parsed state-file content that is well-formed JSON but does not match
the expected schema: `lastExport` and `exportedBranches` are absent. -/
def mismatchJson : JsValue := .obj [("processedCommits", .arr [.str "abc"])]

def demoPattern : SecretPattern :=
  { name := "AWS Access Key ID", test := fun s => s.toList.take 4 == ['A', 'K', 'I', 'A'] }

/-- Like `baseEnv` but with a small, readable blob containing one
secret. -/
def scanEnv1 : GitEnv :=
  { baseEnv with blobSize := fun _ _ => some 20, blobShow := fun _ _ => .ok ("AKIAxyz1") }

/-- A second provider whose blob differs from `scanEnv1`'s but matches
the same secret categories. -/
def scanEnv2 : GitEnv :=
  { baseEnv with blobSize := fun _ _ => some 20, blobShow := fun _ _ => .ok ("AKIAabc2") }

/-- Every effect in a trace originates inside per-branch unit work. -/
def allUnitWork (fx : List Effect) : Prop :=
  ∀ e ∈ fx, fromUnitWork e = true

/-! ### Basic lemmas about the JS set model -/

mutual

theorem JsValue.beq_refl : ∀ a : JsValue, JsValue.beq a a = true
  | .undefined => rfl
  | .null => rfl
  | .bool _ => by simp [JsValue.beq]
  | .num _ => by simp [JsValue.beq]
  | .str _ => by simp [JsValue.beq]
  | .arr xs => by simpa [JsValue.beq] using JsValue.beqList_refl xs
  | .obj xs => by simpa [JsValue.beq] using JsValue.beqFields_refl xs

theorem JsValue.beqList_refl : ∀ l : List JsValue, JsValue.beqList l l = true
  | [] => rfl
  | a :: as => by
    simpa [JsValue.beqList] using And.intro (JsValue.beq_refl a) (JsValue.beqList_refl as)

theorem JsValue.beqFields_refl : ∀ l : List (String × JsValue), JsValue.beqFields l l = true
  | [] => rfl
  | (_, a) :: as => by
    simpa [JsValue.beqFields] using And.intro (JsValue.beq_refl a) (JsValue.beqFields_refl as)

end

theorem jsSetHas_append (s t : List JsValue) (v : JsValue) :
    jsSetHas (s ++ t) v = (jsSetHas s v || jsSetHas t v) := by
  induction s with
  | nil => simp [jsSetHas]
  | cons x rest ih => simp [jsSetHas, ih, Bool.or_assoc]

theorem jsSetHas_add_self (s : List JsValue) (v : JsValue) :
    jsSetHas (jsSetAdd s v) v = true := by
  unfold jsSetAdd
  split
  · assumption
  · simp [jsSetHas_append, jsSetHas, JsValue.beq_refl]

theorem jsSetHas_add_of_has (s : List JsValue) (v w : JsValue)
    (h : jsSetHas s w = true) : jsSetHas (jsSetAdd s v) w = true := by
  unfold jsSetAdd
  split
  · exact h
  · simp [jsSetHas_append, h]

theorem isCommitProcessed_markCommit_self (s : IncrementalState) (sha : String) :
    isCommitProcessed (markCommitProcessed (some s) sha) sha = true := by
  simp [markCommitProcessed, isCommitProcessed, jsSetHas_add_self]

theorem isCommitProcessed_mono_markCommit (st : MState) (x sha : String)
    (h : isCommitProcessed st sha = true) :
    isCommitProcessed (markCommitProcessed st x) sha = true := by
  cases st with
  | none => simp [isCommitProcessed] at h
  | some s => simpa [markCommitProcessed, isCommitProcessed] using
      jsSetHas_add_of_has _ _ _ (by simpa [isCommitProcessed] using h)

theorem isCommitProcessed_markBranch (st : MState) (b sha : String) :
    isCommitProcessed (markBranchExported st b) sha = isCommitProcessed st sha := by
  cases st <;> simp [markBranchExported, isCommitProcessed]

/-! ### Claims -/

/-- C10: with no loaded state (`state = null`), every `IncrementalManager`
operation is total and inert: membership queries return `false`,
`getUnprocessedCommits` returns its input unchanged, `shouldSkipBranch`
returns `false`, and the two marking operations are no-ops. -/
theorem C10_manager_total_on_null_state
    (sha branch : String) (commits : List String) (force : Bool) :
    isCommitProcessed none sha = false
    ∧ isBranchExported none branch = false
    ∧ getUnprocessedCommits none commits = commits
    ∧ shouldSkipBranch none branch force = false
    ∧ markCommitProcessed none sha = none
    ∧ markBranchExported none branch = none := by
  refine ⟨rfl, rfl, rfl, ?_, rfl, rfl⟩
  cases force <;> rfl

/-- C6: `shouldSkipBranch` is `false` whenever `forceUpdate` holds and
otherwise equals `isBranchExported`; and whenever it is `true`,
`processBranch` returns the success outcome with an empty commit list,
leaves the state untouched, and performs no effects at all — in
particular no Source Control Provider call. -/
theorem C6_shouldSkipBranch_fast_path
    (st : MState) (b : String) (f : Bool) (env : GitEnv)
    (patterns : List SecretPattern) (opts : Options) (concurrency : Nat) :
    shouldSkipBranch st b true = false
    ∧ shouldSkipBranch st b false = isBranchExported st b
    ∧ (shouldSkipBranch st b f = true →
        processBranch env patterns opts concurrency b f st =
          ({ branch := b, commits := [], success := true, error := none }, st, [])) := by
  refine ⟨rfl, rfl, fun h => ?_⟩
  simp [processBranch, h]

/-- Witness for C6: in a state where branch `main` is already exported
and no force flag is set, the skip predicate fires and `processBranch`
returns the empty success outcome with no provider calls. -/
theorem C6_witness :
    shouldSkipBranch exportedMState ("main") false = true
    ∧ processBranch baseEnv [] baseOpts 4 ("main") false exportedMState =
        ({ branch := "main", commits := [], success := true, error := none },
          exportedMState, []) :=
  ⟨by decide, (C6_shouldSkipBranch_fast_path exportedMState ("main") false baseEnv [] baseOpts 4).2.2
    (by decide)⟩

/-- C1 (amended): when file-snapshot export is disabled for the run,
`processFile` returns immediately — it writes nothing (no placeholder
artifact) and performs no blob fetch. -/
theorem C1_amended_disabled_export_writes_nothing
    (env : GitEnv) (patterns : List SecretPattern) (opts : Options)
    (sha path : String) (h : opts.includeFiles = false) :
    processFile env patterns opts sha path = [] := by
  simp [processFile, h]

/-- Witness for C1 (amended): a concrete run with `includeFiles = false`
produces no effects. -/
theorem C1_witness :
    noFilesOpts.includeFiles = false
    ∧ processFile baseEnv [] noFilesOpts ("c1") ("src/a.ts") = [] :=
  ⟨rfl, C1_amended_disabled_export_writes_nothing baseEnv [] noFilesOpts ("c1") ("src/a.ts") rfl⟩

/-- Counterexample for C1 as stated: with snapshot export disabled,
`processFile` writes no artifact whatsoever — the claimed "skipped"
placeholder is never produced (its trace has no `writeFile` at all). -/
theorem C1_counterexample_no_placeholder :
    fileWrites (processFile baseEnv [] noFilesOpts ("c1") ("src/a.ts")) = []
    ∧ processFile baseEnv [] noFilesOpts ("c1") ("src/a.ts") = [] :=
  ⟨rfl, rfl⟩

/-- C4 (amended): loading the resumption state at run start never raises
(every failure inside the loader is caught), and on a missing file, an
unparseable file, or parsed content whose coercion throws, it yields the
fresh initial state.  (Parsed content that merely fails to match the
expected schema can instead be coerced into a non-fresh state — see the
counterexample.) -/
theorem C4_amended_run_start_load (now : Nat) :
    runStartLoad .missing now = getInitialState now
    ∧ runStartLoad .malformed now = getInitialState now
    ∧ ∀ v : JsValue, loadState (.wellFormed v) = none →
        runStartLoad (.wellFormed v) now = getInitialState now := by
  refine ⟨rfl, rfl, fun v h => ?_⟩
  simp [runStartLoad, h]

/-- Witness for C4 (amended): the file content `null` parses but its
property access throws; the run-start load degrades to the fresh
initial state. -/
theorem C4_witness :
    loadState (.wellFormed .null) = none
    ∧ runStartLoad (.wellFormed .null) 3 = getInitialState 3 :=
  ⟨rfl, (C4_amended_run_start_load 3).2.2 .null rfl⟩

/-- Counterexample for C4 as stated: the parsed content
`{"processedCommits": ["abc"]}` does not match the expected schema
(`lastExport` and `exportedBranches` are missing), yet the loader coerces
it instead of substituting a fresh initial state: the resulting
`processedCommits` is non-empty. -/
theorem C4_counterexample_schema_mismatch_not_fresh :
    (runStartLoad (.wellFormed mismatchJson) 7).processedCommits = [.str "abc"]
    ∧ (getInitialState 7).processedCommits = [] :=
  ⟨rfl, rfl⟩

/-- The effect list of a blob fetch is one of two concrete shapes: the
size probe alone, or the size probe followed by the content fetch. -/
theorem getBlobContent_effects_cases (env : GitEnv) (sha path : String) (maxBytes : Nat) :
    (getBlobContent env sha path maxBytes).2 = [.gitBlobSize sha path]
    ∨ (getBlobContent env sha path maxBytes).2 = [.gitBlobSize sha path, .gitBlobShow sha path] := by
  unfold getBlobContent
  rcases env.blobSize sha path with _ | size
  · exact .inl rfl
  · dsimp only
    by_cases hs : size > maxBytes
    · rw [if_pos hs]
      exact .inl rfl
    · rw [if_neg hs]
      rcases env.blobShow sha path with e | c
      · exact .inr rfl
      · exact .inr rfl

/-- C7: when snapshot export is enabled but the blob resolves to `null`
— its size probe fails, its size exceeds the configured maximum, or its
content cannot be read — `processFile` writes exactly one artifact: the
skip placeholder citing the configured limit; it performs no secret scan
and writes no alert. -/
theorem C7_oversized_or_unreadable_blob_placeholder_no_scan
    (env : GitEnv) (patterns : List SecretPattern) (opts : Options) (sha path : String)
    (hIncl : opts.includeFiles = true)
    (hNone : (getBlobContent env sha path opts.maxFileSize).1 = none) :
    fileWrites (processFile env patterns opts sha path) =
      [("files/" ++ safeName path ++ "@" ++ sha ++ ".md",
        "# Snapshot skipped (too large or binary) `" ++ path ++ "` @ " ++ sha
          ++ "\nSize exceeded " ++ toString opts.maxFileSize ++ " bytes or can't read blob.")]
    ∧ (processFile env patterns opts sha path).countP isScanEffect = 0
    ∧ alertWrites (processFile env patterns opts sha path) = [] := by
  have hrun : processFile env patterns opts sha path =
      (getBlobContent env sha path opts.maxFileSize).2
        ++ [.writeFile ("files/" ++ safeName path ++ "@" ++ sha ++ ".md")
              ("# Snapshot skipped (too large or binary) `" ++ path ++ "` @ " ++ sha
                ++ "\nSize exceeded " ++ toString opts.maxFileSize ++ " bytes or can't read blob.")] := by
    unfold processFile
    rw [hIncl]
    simp only [Bool.not_true, Bool.false_eq_true, if_false, hNone]
  rw [hrun]
  rcases getBlobContent_effects_cases env sha path opts.maxFileSize with h2 | h2 <;>
    rw [h2] <;>
    exact ⟨rfl, rfl, rfl⟩

/-- Witness for C7: the spec's own scenario — a 500-byte blob against a
100-byte cap yields the "skipped" placeholder citing 100 bytes, with no
scan and no alert. -/
theorem C7_witness :
    baseOpts.includeFiles = true
    ∧ (getBlobContent baseEnv ("c1") ("big.bin") baseOpts.maxFileSize).1 = none
    ∧ fileWrites (processFile baseEnv [demoPattern] baseOpts ("c1") ("big.bin")) =
        [("files/big.bin@c1.md",
          "# Snapshot skipped (too large or binary) `big.bin` @ c1\nSize exceeded 100 bytes or can't read blob.")]
    ∧ (processFile baseEnv [demoPattern] baseOpts ("c1") ("big.bin")).countP isScanEffect = 0
    ∧ alertWrites (processFile baseEnv [demoPattern] baseOpts ("c1") ("big.bin")) = [] := by
  have main := C7_oversized_or_unreadable_blob_placeholder_no_scan baseEnv [demoPattern]
    baseOpts ("c1") ("big.bin") rfl rfl
  exact ⟨rfl, rfl, by simpa using main.1, main.2.1, main.2.2⟩

/-- The alert writes of a file-snapshot run on a fetched blob: empty when
nothing matched, otherwise the single alert built from the path, the
commit id and the matched category names. -/
theorem alertWrites_processFile_of_blob (env : GitEnv) (patterns : List SecretPattern)
    (opts : Options) (sha path : String) (b : String)
    (hIncl : opts.includeFiles = true) (hScan : opts.secretScan = true)
    (hb : (getBlobContent env sha path opts.maxFileSize).1 = some b) :
    alertWrites (processFile env patterns opts sha path) =
      if (scanForSecrets patterns b).isEmpty then []
      else [("alerts/" ++ safeName path ++ "@" ++ sha ++ ".secret.txt",
             buildAlertContent path sha (scanForSecrets patterns b))] := by
  have hfx : ∀ e ∈ (getBlobContent env sha path opts.maxFileSize).2,
      (match e with | .writeAlert p c => some (p, c) | _ => none) = (none : Option (String × String)) := by
    rcases getBlobContent_effects_cases env sha path opts.maxFileSize with h2 | h2 <;>
      rw [h2] <;> intro e he <;> simp at he
    · rw [he]
    · rcases he with he | he <;> rw [he]
  unfold processFile
  rw [hIncl]
  simp only [Bool.not_true, Bool.false_eq_true, if_false, hb, hScan, if_true]
  by_cases hh : (scanForSecrets patterns b).isEmpty <;>
    simp [hh, alertWrites, List.filterMap_append, List.filterMap_eq_nil_iff.mpr hfx]

/-- C8: the alert artifact is a function of the file path, the commit id
and the matched category names alone — two runs whose blobs match the
same categories produce byte-identical alert artifacts — and every name
it is built from is a configured pattern name, never a substring of the
blob. -/
theorem C8_alert_content_redacts_secrets
    (env₁ env₂ : GitEnv) (patterns : List SecretPattern) (opts : Options)
    (sha path b₁ b₂ : String)
    (hIncl : opts.includeFiles = true) (hScan : opts.secretScan = true)
    (h₁ : (getBlobContent env₁ sha path opts.maxFileSize).1 = some b₁)
    (h₂ : (getBlobContent env₂ sha path opts.maxFileSize).1 = some b₂)
    (hsame : scanForSecrets patterns b₁ = scanForSecrets patterns b₂) :
    alertWrites (processFile env₁ patterns opts sha path)
      = alertWrites (processFile env₂ patterns opts sha path)
    ∧ (¬ (scanForSecrets patterns b₁).isEmpty →
        alertWrites (processFile env₁ patterns opts sha path)
          = [("alerts/" ++ safeName path ++ "@" ++ sha ++ ".secret.txt",
              buildAlertContent path sha (scanForSecrets patterns b₁))])
    ∧ ∀ h ∈ scanForSecrets patterns b₁, h ∈ patterns.map SecretPattern.name := by
  have e₁ := alertWrites_processFile_of_blob env₁ patterns opts sha path b₁ hIncl hScan h₁
  have e₂ := alertWrites_processFile_of_blob env₂ patterns opts sha path b₂ hIncl hScan h₂
  refine ⟨?_, ?_, ?_⟩
  · rw [e₁, e₂, hsame]
  · intro hne
    rw [e₁, if_neg hne]
  · intro h hmem
    simp only [scanForSecrets, List.mem_map] at hmem
    rcases hmem with ⟨p, hp, hname⟩
    exact List.mem_map.mpr ⟨p, (List.mem_filter.mp hp).1, hname⟩

theorem allUnitWork_nil : allUnitWork [] := by
  intro e he
  simp at he

theorem allUnitWork_cons (e : Effect) (fx : List Effect)
    (he : fromUnitWork e = true) (h : allUnitWork fx) : allUnitWork (e :: fx) := by
  intro x hx
  rcases List.mem_cons.mp hx with hx | hx
  · rw [hx]; exact he
  · exact h x hx

theorem allUnitWork_append (a b : List Effect)
    (h1 : allUnitWork a) (h2 : allUnitWork b) : allUnitWork (a ++ b) := by
  intro x hx
  rcases List.mem_append.mp hx with hx | hx
  · exact h1 x hx
  · exact h2 x hx

theorem allUnitWork_flatten (L : List (List Effect))
    (h : ∀ l ∈ L, allUnitWork l) : allUnitWork L.flatten := by
  intro x hx
  rcases List.mem_flatten.mp hx with ⟨l, hl, hxl⟩
  exact h l hl x hxl

theorem getBlobContent_unitWork (env : GitEnv) (sha path : String) (maxBytes : Nat) :
    allUnitWork (getBlobContent env sha path maxBytes).2 := by
  rcases getBlobContent_effects_cases env sha path maxBytes with h | h <;> rw [h]
  · exact allUnitWork_cons _ _ rfl allUnitWork_nil
  · exact allUnitWork_cons _ _ rfl (allUnitWork_cons _ _ rfl allUnitWork_nil)

theorem fromUnitWork_of_mem_blob (env : GitEnv) (sha path : String) (maxBytes : Nat)
    (e : Effect) (he : e ∈ (getBlobContent env sha path maxBytes).2) :
    fromUnitWork e = true :=
  getBlobContent_unitWork env sha path maxBytes e he

theorem processFile_unitWork (env : GitEnv) (patterns : List SecretPattern)
    (opts : Options) (sha path : String) :
    allUnitWork (processFile env patterns opts sha path) := by
  intro e he
  unfold processFile at he
  dsimp only at he
  repeat' split at he
  all_goals simp only [List.append_assoc, List.mem_append, List.mem_cons,
    List.not_mem_nil, or_false] at he
  all_goals repeat' rcases he with he | he
  all_goals first
    | exact he.elim
    | rfl
    | (rw [he]; rfl)
    | exact fromUnitWork_of_mem_blob env sha path opts.maxFileSize e he

theorem processCommit_unitWork (env : GitEnv) (patterns : List SecretPattern)
    (opts : Options) (sha branch : String) (st : MState) :
    allUnitWork (processCommit env patterns opts sha branch st).2.2 := by
  intro e he
  unfold processCommit at he
  dsimp only at he
  repeat' split at he
  all_goals dsimp only at he
  all_goals simp only [List.append_assoc, List.mem_append, List.mem_cons,
    List.not_mem_nil, or_false] at he
  all_goals repeat' rcases he with he | he
  all_goals first
    | exact he.elim
    | rfl
    | (rw [he]; rfl)
    | (rcases List.mem_flatten.mp he with ⟨l, hl, hel⟩
       rcases List.mem_map.mp hl with ⟨f, _, hf⟩
       rw [← hf] at hel
       exact processFile_unitWork env patterns opts sha f e hel)

theorem summaryLoop_unitWork (env : GitEnv) (commits : List String) :
    allUnitWork (summaryLoop env commits).2 := by
  induction commits with
  | nil => exact allUnitWork_nil
  | cons sha rest ih =>
    intro e he
    unfold summaryLoop at he
    dsimp only at he
    split at he
    all_goals dsimp only at he
    · simp only [List.mem_cons, List.not_mem_nil, or_false] at he
      rw [he]; rfl
    · rcases List.mem_cons.mp he with h | h
      · rw [h]; rfl
      · exact ih e h

/-- Pair-shaped restatement of `summaryLoop_unitWork`, convenient after
`split`. -/
theorem summaryLoop_snd_unitWork (env : GitEnv) (commits : List String)
    (r : Except String (List String)) (fx : List Effect)
    (heq : summaryLoop env commits = (r, fx)) : allUnitWork fx := by
  have h := summaryLoop_unitWork env commits
  rw [heq] at h
  exact h

theorem exportBranchSummary_unitWork (env : GitEnv) (branch : String) (commits : List String) :
    allUnitWork (exportBranchSummary env branch commits).2 := by
  intro e he
  unfold exportBranchSummary at he
  dsimp only at he
  split at he
  all_goals dsimp only at he
  · rcases List.mem_append.mp he with h | h
    · exact summaryLoop_snd_unitWork env commits _ _ (by assumption) e h
    · simp only [List.mem_cons, List.not_mem_nil, or_false] at h
      rw [h]; rfl
  · exact summaryLoop_snd_unitWork env commits _ _ (by assumption) e he

/-- Pair-shaped restatement of `exportBranchSummary_unitWork`. -/
theorem exportBranchSummary_snd_unitWork (env : GitEnv) (branch : String)
    (commits : List String) (r : Except String Unit) (fx : List Effect)
    (heq : exportBranchSummary env branch commits = (r, fx)) : allUnitWork fx := by
  have h := exportBranchSummary_unitWork env branch commits
  rw [heq] at h
  exact h

theorem runCommitBatch_unitWork (env : GitEnv) (patterns : List SecretPattern)
    (opts : Options) (batch : List String) (branch : String) (st : MState) :
    allUnitWork (runCommitBatch env patterns opts batch branch st).2.2 := by
  induction batch generalizing st with
  | nil => exact allUnitWork_nil
  | cons sha rest ih =>
    intro e he
    unfold runCommitBatch at he
    dsimp only at he
    rcases List.mem_append.mp he with h | h
    · exact processCommit_unitWork env patterns opts sha branch st e h
    · exact ih _ e h

theorem runCommitBatches_unitWork (env : GitEnv) (patterns : List SecretPattern)
    (opts : Options) (batches : List (List String)) (branch : String) (st : MState) :
    allUnitWork (runCommitBatches env patterns opts batches branch st).2.2 := by
  induction batches generalizing st with
  | nil => exact allUnitWork_nil
  | cons b rest ih =>
    intro e he
    unfold runCommitBatches at he
    dsimp only at he
    split at he
    all_goals dsimp only at he
    · exact runCommitBatch_unitWork env patterns opts b branch st e he
    · rcases List.mem_append.mp he with h | h
      · exact runCommitBatch_unitWork env patterns opts b branch st e h
      · exact ih _ e h

theorem processBranch_unitWork (env : GitEnv) (patterns : List SecretPattern)
    (opts : Options) (concurrency : Nat) (branch : String) (forceUpdate : Bool) (st : MState) :
    allUnitWork (processBranch env patterns opts concurrency branch forceUpdate st).2.2 := by
  intro e he
  unfold processBranch at he
  dsimp only at he
  split at he
  · simp at he
  · split at he
    all_goals try dsimp only at he
    · simp only [List.mem_cons, List.not_mem_nil, or_false] at he
      rw [he]; rfl
    · split at he
      all_goals try dsimp only at he
      · simp only [List.mem_cons, List.not_mem_nil, or_false] at he
        rw [he]; rfl
      · split at he
        all_goals try dsimp only at he
        · rcases List.mem_cons.mp he with h | h
          · rw [h]; rfl
          · exact exportBranchSummary_snd_unitWork env branch _ _ _ (by assumption) e h
        · split at he
          all_goals try dsimp only at he
          all_goals rcases List.mem_cons.mp he with h | h
          · rw [h]; rfl
          · rcases List.mem_append.mp h with h | h
            · exact exportBranchSummary_snd_unitWork env branch _ _ _ (by assumption) e h
            · exact runCommitBatches_unitWork env patterns opts _ branch st e h
          · rw [h]; rfl
          · rcases List.mem_append.mp h with h | h
            · exact exportBranchSummary_snd_unitWork env branch _ _ _ (by assumption) e h
            · exact runCommitBatches_unitWork env patterns opts _ branch st e h

theorem runBranchBatch_unitWork (env : GitEnv) (patterns : List SecretPattern)
    (opts : Options) (concurrency : Nat) (batch : List String) (forceUpdate : Bool) (st : MState) :
    allUnitWork (runBranchBatch env patterns opts concurrency batch forceUpdate st).2.2 := by
  induction batch generalizing st with
  | nil => exact allUnitWork_nil
  | cons b rest ih =>
    intro e he
    unfold runBranchBatch at he
    dsimp only at he
    rcases List.mem_append.mp he with h | h
    · exact processBranch_unitWork env patterns opts concurrency b forceUpdate st e h
    · exact ih _ e h

/-- Witness for C8: two providers whose blobs differ but match the same
category produce identical alert artifacts, built from the category name
only. -/
theorem C8_witness :
    (getBlobContent scanEnv1 ("c1") ("k.txt") baseOpts.maxFileSize).1 = some ("AKIAxyz1")
    ∧ (getBlobContent scanEnv2 ("c1") ("k.txt") baseOpts.maxFileSize).1 = some ("AKIAabc2")
    ∧ scanForSecrets [demoPattern] ("AKIAxyz1") = ["AWS Access Key ID"]
    ∧ alertWrites (processFile scanEnv1 [demoPattern] baseOpts ("c1") ("k.txt"))
        = alertWrites (processFile scanEnv2 [demoPattern] baseOpts ("c1") ("k.txt"))
    ∧ alertWrites (processFile scanEnv1 [demoPattern] baseOpts ("c1") ("k.txt"))
        = [("alerts/k.txt@c1.secret.txt",
            buildAlertContent ("k.txt") ("c1") (["AWS Access Key ID"]))] := by
  have main := C8_alert_content_redacts_secrets scanEnv1 scanEnv2 [demoPattern] baseOpts
    ("c1") ("k.txt") ("AKIAxyz1") ("AKIAabc2") rfl rfl rfl rfl rfl
  exact ⟨rfl, rfl, rfl, main.1, by simpa using main.2.1 (by decide)⟩

theorem processBranch_branch (env : GitEnv) (patterns : List SecretPattern) (opts : Options)
    (concurrency : Nat) (branch : String) (forceUpdate : Bool) (st : MState) :
    (processBranch env patterns opts concurrency branch forceUpdate st).1.branch = branch := by
  unfold processBranch
  dsimp only
  repeat' split
  all_goals rfl

theorem runBranchBatch_branches (env : GitEnv) (patterns : List SecretPattern) (opts : Options)
    (concurrency : Nat) (batch : List String) (forceUpdate : Bool) (st : MState) :
    (runBranchBatch env patterns opts concurrency batch forceUpdate st).1.map
      BranchExportResult.branch = batch := by
  induction batch generalizing st with
  | nil => rfl
  | cons b rest ih =>
    unfold runBranchBatch
    dsimp only
    rw [List.map_cons, processBranch_branch, ih]

theorem processBranchesLoop_branches (env : GitEnv) (patterns : List SecretPattern)
    (opts : Options) (concurrency : Nat) (batches : List (List String)) (forceUpdate : Bool)
    (total completed : Nat) (st : MState) :
    (processBranchesLoop env patterns opts concurrency batches forceUpdate total completed st).1.map
      BranchExportResult.branch = batches.flatten := by
  induction batches generalizing completed st with
  | nil => rfl
  | cons batch rest ih =>
    unfold processBranchesLoop
    dsimp only
    rw [List.map_append, runBranchBatch_branches, ih, List.flatten_cons]

theorem chunkArrayGo_flatten (f : Nat) :
    ∀ (l : List α) (n : Nat), 0 < n → l.length ≤ f → (chunkArrayGo f l n).flatten = l := by
  induction f with
  | zero =>
    intro l n _ hl
    rw [List.length_eq_zero.mp (Nat.le_zero.mp hl)]
    rfl
  | succ f ih =>
    intro l n hn hl
    match l with
    | [] => rfl
    | a :: l2 =>
      unfold chunkArrayGo
      rw [List.flatten_cons, ih ((a :: l2).drop n) n hn ?_, List.take_append_drop]
      have : (a :: l2).length - n ≤ f := by
        simp only [List.length_cons] at hl ⊢
        omega
      simpa [List.length_drop] using this

theorem chunkArray_flatten (l : List α) (n : Nat) (hn : 0 < n) :
    (chunkArray l n).flatten = l := by
  unfold chunkArray
  rw [if_neg (Nat.pos_iff_ne_zero.mp hn)]
  exact chunkArrayGo_flatten l.length l n hn le_rfl

/-- C5: `processBranches` returns exactly one outcome per input branch,
and the outcome list preserves the input branch order (the `branch`
fields of the results, in order, are exactly the input list).  The batch
results of each `Promise.all` are collected in task order, independent of
completion order. -/
theorem C5_outcomes_preserve_branch_order (env : GitEnv) (patterns : List SecretPattern)
    (opts : Options) (concurrency : Nat) (branches : List String) (forceUpdate : Bool)
    (st : MState) (hc : 0 < concurrency) :
    (processBranches env patterns opts concurrency branches forceUpdate st).1.map
        BranchExportResult.branch = branches
    ∧ (processBranches env patterns opts concurrency branches forceUpdate st).1.length
        = branches.length := by
  have h : (processBranches env patterns opts concurrency branches forceUpdate st).1.map
      BranchExportResult.branch = branches := by
    unfold processBranches
    dsimp only
    rw [processBranchesLoop_branches, chunkArray_flatten _ _ hc]
  refine ⟨h, ?_⟩
  have h2 := congrArg List.length h
  simpa using h2

/-- Witness for C5: three branches at concurrency 2 (two batches) come
back as three outcomes in input order. -/
theorem C5_witness :
    (0 : Nat) < 2
    ∧ (processBranches baseEnv [] baseOpts 2 (["main", "dev", "feature"]) false
        initialMState).1.map BranchExportResult.branch = ["main", "dev", "feature"]
    ∧ (processBranches baseEnv [] baseOpts 2 (["main", "dev", "feature"]) false
        initialMState).1.length = 3 := by
  have main := C5_outcomes_preserve_branch_order baseEnv [] baseOpts 2
    (["main", "dev", "feature"]) false initialMState (by decide)
  exact ⟨by decide, main.1, main.2⟩

theorem progressEvents_append (a b : List Effect) :
    progressEvents (a ++ b) = progressEvents a ++ progressEvents b :=
  List.filterMap_append a b _

theorem progressEvents_eq_nil_of_unitWork (fx : List Effect) (h : allUnitWork fx) :
    progressEvents fx = [] := by
  refine List.filterMap_eq_nil_iff.mpr ?_
  intro e he
  have hu := h e he
  cases e <;> first | rfl | simp [fromUnitWork] at hu

theorem processBranchesLoop_progress (env : GitEnv) (patterns : List SecretPattern)
    (opts : Options) (concurrency : Nat) (batches : List (List String)) (forceUpdate : Bool)
    (total : Nat) :
    ∀ (completed : Nat) (st : MState),
    progressEvents
        (processBranchesLoop env patterns opts concurrency batches forceUpdate
          total completed st).2.2
      = progressTrace total completed (batches.map List.length) := by
  induction batches with
  | nil => intro completed st; rfl
  | cons batch rest ih =>
    intro completed st
    unfold processBranchesLoop
    dsimp only
    rw [progressEvents_append,
      progressEvents_eq_nil_of_unitWork _
        (runBranchBatch_unitWork env patterns opts concurrency batch forceUpdate st),
      List.nil_append]
    show progressEvents (.emitProgress total (completed + batch.length) :: _) = _
    unfold progressEvents
    rw [List.filterMap_cons]
    dsimp only
    rw [show (List.filterMap _ _ = progressEvents _) from rfl, ih]
    rfl

theorem progressTrace_totals (total : Nat) :
    ∀ (completed : Nat) (sizes : List Nat), ∀ p ∈ progressTrace total completed sizes,
      p.1 = total := by
  intro completed sizes
  induction sizes generalizing completed with
  | nil => intro p hp; simp [progressTrace] at hp
  | cons s rest ih =>
    intro p hp
    unfold progressTrace at hp
    rcases List.mem_cons.mp hp with h | h
    · rw [h]
    · exact ih _ p h

theorem progressTrace_chain (total : Nat) :
    ∀ (completed : Nat) (sizes : List Nat),
      List.Chain' (fun a b => a.2 ≤ b.2)
        ((total, completed) :: progressTrace total completed sizes) := by
  intro completed sizes
  induction sizes generalizing completed with
  | nil => simp [progressTrace]
  | cons s rest ih =>
    unfold progressTrace
    exact List.Chain'.cons (Nat.le_add_right _ _) (ih (completed + s))

/-- C9: across one `processBranches` run, the progress events are the
initial `(total, 0)` event followed by one event per batch whose
completed count accumulates exactly the batch sizes — regardless of
per-branch success or failure, since the count is bumped by the batch
length unconditionally; every event carries the constant total equal to
the input branch count, and the completed counts are monotonically
non-decreasing; the batches partition the input list. -/
theorem C9_progress_monotone_batchwise (env : GitEnv) (patterns : List SecretPattern)
    (opts : Options) (concurrency : Nat) (branches : List String) (forceUpdate : Bool)
    (st : MState) (hc : 0 < concurrency) :
    progressEvents (processBranches env patterns opts concurrency branches forceUpdate st).2.2
      = (branches.length, 0)
          :: progressTrace branches.length 0 ((chunkArray branches concurrency).map List.length)
    ∧ (∀ p ∈ progressEvents
          (processBranches env patterns opts concurrency branches forceUpdate st).2.2,
        p.1 = branches.length)
    ∧ List.Chain' (fun a b => a.2 ≤ b.2)
        (progressEvents (processBranches env patterns opts concurrency branches forceUpdate st).2.2)
    ∧ (chunkArray branches concurrency).flatten = branches := by
  have h : progressEvents
      (processBranches env patterns opts concurrency branches forceUpdate st).2.2
      = (branches.length, 0)
          :: progressTrace branches.length 0 ((chunkArray branches concurrency).map List.length) := by
    unfold processBranches
    dsimp only
    show progressEvents (.emitProgress branches.length 0 :: _) = _
    unfold progressEvents
    rw [List.filterMap_cons]
    dsimp only
    rw [show (List.filterMap _ _ = progressEvents _) from rfl,
      processBranchesLoop_progress]
  refine ⟨h, ?_, ?_, chunkArray_flatten _ _ hc⟩
  · intro p hp
    rw [h] at hp
    rcases List.mem_cons.mp hp with h0 | h0
    · rw [h0]
    · exact progressTrace_totals branches.length 0 _ p h0
  · rw [h]
    exact progressTrace_chain branches.length 0 _

/-- Witness for C9: three branches at concurrency 2 emit the events
`(3,0)`, `(3,2)`, `(3,3)`. -/
theorem C9_witness :
    (0 : Nat) < 2
    ∧ progressEvents (processBranches baseEnv [] baseOpts 2 (["b1", "b2", "b3"]) false
        initialMState).2.2 = [(3, 0), (3, 2), (3, 3)] := by
  have main := C9_progress_monotone_batchwise baseEnv [] baseOpts 2 (["b1", "b2", "b3"]) false
    initialMState (by decide)
  refine ⟨by decide, ?_⟩
  rw [main.1]
  rfl

theorem countP_save_zero (fx : List Effect) (h : allUnitWork fx) :
    fx.countP isSaveEffect = 0 := by
  rw [List.countP_eq_zero]
  intro e he
  have hu := h e he
  cases e <;> first | (intro hs; exact Bool.noConfusion hs) | exact Bool.noConfusion hu

theorem getLast?_cons_cons_cons_concat (a b c : α) (l : List α) (s : α) :
    List.getLast? (a :: b :: c :: (l ++ [s])) = some s := by
  have h : (a :: b :: c :: (l ++ [s])) = ((a :: b :: c :: l) ++ [s]) := by simp
  rw [h, List.getLast?_concat]

theorem processBranchesLoop_saves (env : GitEnv) (patterns : List SecretPattern)
    (opts : Options) (concurrency : Nat) (batches : List (List String)) (forceUpdate : Bool)
    (total : Nat) :
    ∀ (completed : Nat) (st : MState),
    (processBranchesLoop env patterns opts concurrency batches forceUpdate
        total completed st).2.2.countP isSaveEffect = 0 := by
  induction batches with
  | nil => intro completed st; rfl
  | cons batch rest ih =>
    intro completed st
    unfold processBranchesLoop
    dsimp only
    rw [List.countP_append,
      countP_save_zero _ (runBranchBatch_unitWork env patterns opts concurrency batch forceUpdate st),
      List.countP_cons, ih]
    rfl

theorem processBranches_saves (env : GitEnv) (patterns : List SecretPattern)
    (opts : Options) (concurrency : Nat) (branches : List String) (forceUpdate : Bool)
    (st : MState) :
    (processBranches env patterns opts concurrency branches forceUpdate st).2.2.countP
      isSaveEffect = 0 := by
  unfold processBranches
  dsimp only
  rw [List.countP_cons, processBranchesLoop_saves]
  rfl

/-- C3: whenever repository identity fetch succeeds (orchestration is
reached), `exportRun` returns a result, attempts the state save exactly
once, and that save is the final effect of the run — after every branch
has been attempted, however many branch outcomes failed; whenever
repository identity fetch fails, the run surfaces that same error to the
caller and no save is attempted. -/
theorem C3_state_saved_once_after_orchestration (env : GitEnv)
    (patterns : List SecretPattern) (opts : Options) (concurrency : Nat)
    (forceUpdate : Bool) (file : StateFile) (now : Nat) :
    (∀ repo, env.repositoryInfo = .ok repo →
      (∃ rs, (exportRun env patterns opts concurrency forceUpdate file now).1 = .ok rs)
      ∧ (exportRun env patterns opts concurrency forceUpdate file now).2.2.countP
          isSaveEffect = 1
      ∧ (∃ s, (exportRun env patterns opts concurrency forceUpdate file now).2.2.getLast?
          = some (.saveState s)))
    ∧ (∀ err, env.repositoryInfo = .error err →
      (exportRun env patterns opts concurrency forceUpdate file now).1 = .error err
      ∧ (exportRun env patterns opts concurrency forceUpdate file now).2.2.countP
          isSaveEffect = 0) := by
  constructor
  · intro repo hrepo
    unfold exportRun
    rw [hrepo]
    dsimp only
    refine ⟨⟨_, rfl⟩, ?_, ?_⟩
    · rw [List.countP_cons, List.countP_cons, List.countP_cons, List.countP_append,
        List.countP_cons, List.countP_nil, processBranches_saves]
      rfl
    · exact ⟨_, getLast?_cons_cons_cons_concat _ _ _ _ _⟩
  · intro err herr
    unfold exportRun
    rw [herr]
    exact ⟨rfl, rfl⟩

/-- Witness for C3: with a healthy provider the run saves exactly once;
with a failing repository-identity fetch the same error is re-raised and
nothing is saved. -/
theorem C3_witness :
    baseEnv.repositoryInfo = .ok demoRepo
    ∧ (exportRun baseEnv [] baseOpts 4 false .missing 0).2.2.countP isSaveEffect = 1
    ∧ failRepoEnv.repositoryInfo = .error ("not a git repository")
    ∧ (exportRun failRepoEnv [] baseOpts 4 false .missing 0).1
        = .error ("not a git repository")
    ∧ (exportRun failRepoEnv [] baseOpts 4 false .missing 0).2.2.countP isSaveEffect = 0 := by
  have okRun := C3_state_saved_once_after_orchestration baseEnv [] baseOpts 4 false .missing 0
  have errRun := C3_state_saved_once_after_orchestration failRepoEnv [] baseOpts 4 false
    .missing 0
  exact ⟨rfl, (okRun.1 demoRepo rfl).2.1, rfl, (errRun.2 _ rfl).1, (errRun.2 _ rfl).2⟩

theorem processCommit_state_of_ok (env : GitEnv) (patterns : List SecretPattern)
    (opts : Options) (sha branch : String) (st : MState) :
    (processCommit env patterns opts sha branch st).1 = .ok () →
      (processCommit env patterns opts sha branch st).2.1 = markCommitProcessed st sha := by
  unfold processCommit
  dsimp only
  repeat' split
  all_goals intro h
  all_goals first | rfl | simp at h

theorem processCommit_state_of_error (env : GitEnv) (patterns : List SecretPattern)
    (opts : Options) (sha branch : String) (st : MState) :
    ∀ err, (processCommit env patterns opts sha branch st).1 = .error err →
      (processCommit env patterns opts sha branch st).2.1 = st := by
  unfold processCommit
  dsimp only
  repeat' split
  all_goals intro err h
  all_goals first | rfl | simp at h

theorem processCommit_commit_mono (env : GitEnv) (patterns : List SecretPattern)
    (opts : Options) (sha branch : String) (st : MState) (c : String)
    (h : isCommitProcessed st c = true) :
    isCommitProcessed (processCommit env patterns opts sha branch st).2.1 c = true := by
  rcases hres : (processCommit env patterns opts sha branch st).1 with err | u
  · rw [processCommit_state_of_error env patterns opts sha branch st err hres]
    exact h
  · cases u
    rw [processCommit_state_of_ok env patterns opts sha branch st hres]
    exact isCommitProcessed_mono_markCommit st sha c h

theorem markCommitProcessed_some (s : IncrementalState) (sha : String) :
    markCommitProcessed (some s) sha
      = some { s with processedCommits := jsSetAdd s.processedCommits (.str sha) } := rfl

theorem processCommit_state_isSome (env : GitEnv) (patterns : List SecretPattern)
    (opts : Options) (sha branch : String) (s : IncrementalState) :
    ∃ s2, (processCommit env patterns opts sha branch (some s)).2.1 = some s2 := by
  rcases hres : (processCommit env patterns opts sha branch (some s)).1 with err | u
  · exact ⟨s, processCommit_state_of_error env patterns opts sha branch (some s) err hres⟩
  · cases u
    exact ⟨_, by rw [processCommit_state_of_ok env patterns opts sha branch (some s) hres,
      markCommitProcessed_some]⟩

theorem runCommitBatch_commit_mono (env : GitEnv) (patterns : List SecretPattern)
    (opts : Options) (batch : List String) (branch : String) :
    ∀ (st : MState) (c : String), isCommitProcessed st c = true →
      isCommitProcessed (runCommitBatch env patterns opts batch branch st).2.1 c = true := by
  induction batch with
  | nil => intro st c h; exact h
  | cons sha rest ih =>
    intro st c h
    unfold runCommitBatch
    dsimp only
    exact ih _ c (processCommit_commit_mono env patterns opts sha branch st c h)

theorem runCommitBatch_state_isSome (env : GitEnv) (patterns : List SecretPattern)
    (opts : Options) (batch : List String) (branch : String) :
    ∀ (s : IncrementalState),
      ∃ s2, (runCommitBatch env patterns opts batch branch (some s)).2.1 = some s2 := by
  induction batch with
  | nil => intro s; exact ⟨s, rfl⟩
  | cons sha rest ih =>
    intro s
    unfold runCommitBatch
    dsimp only
    rcases processCommit_state_isSome env patterns opts sha branch s with ⟨s1, hs1⟩
    rw [hs1]
    exact ih s1

theorem runCommitBatch_ok_marks (env : GitEnv) (patterns : List SecretPattern)
    (opts : Options) (batch : List String) (branch : String) :
    ∀ (s : IncrementalState),
      (runCommitBatch env patterns opts batch branch (some s)).1 = .ok () →
      ∀ c ∈ batch,
        isCommitProcessed (runCommitBatch env patterns opts batch branch (some s)).2.1 c
          = true := by
  induction batch with
  | nil => intro s _ c hc; simp at hc
  | cons sha rest ih =>
    intro s hok c hc
    rcases hh : (processCommit env patterns opts sha branch (some s)).1 with err | u
    · exfalso
      unfold runCommitBatch at hok
      dsimp only at hok
      rw [hh] at hok
      simp at hok
    · cases u
      rcases processCommit_state_isSome env patterns opts sha branch s with ⟨s1, hs1⟩
      have hokt : (runCommitBatch env patterns opts rest branch (some s1)).1 = .ok () := by
        unfold runCommitBatch at hok
        dsimp only at hok
        rw [hh] at hok
        dsimp only at hok
        rw [hs1] at hok
        exact hok
      simp only [runCommitBatch]
      try dsimp only
      rw [hs1]
      rcases List.mem_cons.mp hc with hceq | hcm
      · subst hceq
        have h1 : isCommitProcessed (some s1) c = true := by
          rw [← hs1, processCommit_state_of_ok env patterns opts c branch (some s) hh]
          exact isCommitProcessed_markCommit_self s c
        exact runCommitBatch_commit_mono env patterns opts rest branch (some s1) c h1
      · exact ih s1 hokt c hcm

theorem runCommitBatches_commit_mono (env : GitEnv) (patterns : List SecretPattern)
    (opts : Options) (batches : List (List String)) (branch : String) :
    ∀ (st : MState) (c : String), isCommitProcessed st c = true →
      isCommitProcessed (runCommitBatches env patterns opts batches branch st).2.1 c
        = true := by
  induction batches with
  | nil => intro st c h; exact h
  | cons b rest ih =>
    intro st c h
    unfold runCommitBatches
    dsimp only
    split
    · exact runCommitBatch_commit_mono env patterns opts b branch st c h
    · exact ih _ c (runCommitBatch_commit_mono env patterns opts b branch st c h)

theorem runCommitBatches_state_isSome (env : GitEnv) (patterns : List SecretPattern)
    (opts : Options) (batches : List (List String)) (branch : String) :
    ∀ (s : IncrementalState),
      ∃ s2, (runCommitBatches env patterns opts batches branch (some s)).2.1 = some s2 := by
  induction batches with
  | nil => intro s; exact ⟨s, rfl⟩
  | cons b rest ih =>
    intro s
    unfold runCommitBatches
    dsimp only
    rcases runCommitBatch_state_isSome env patterns opts b branch s with ⟨s1, hs1⟩
    split
    · exact ⟨s1, hs1⟩
    · rw [hs1]
      exact ih s1

theorem runCommitBatches_ok_marks (env : GitEnv) (patterns : List SecretPattern)
    (opts : Options) (batches : List (List String)) (branch : String) :
    ∀ (s : IncrementalState),
      (runCommitBatches env patterns opts batches branch (some s)).1 = .ok () →
      ∀ c ∈ batches.flatten,
        isCommitProcessed (runCommitBatches env patterns opts batches branch (some s)).2.1 c
          = true := by
  induction batches with
  | nil => intro s _ c hc; simp at hc
  | cons b rest ih =>
    intro s hok c hc
    rcases hh : (runCommitBatch env patterns opts b branch (some s)).1 with err | u
    · exfalso
      unfold runCommitBatches at hok
      dsimp only at hok
      rw [hh] at hok
      simp at hok
    · cases u
      rcases runCommitBatch_state_isSome env patterns opts b branch s with ⟨s1, hs1⟩
      have hokt : (runCommitBatches env patterns opts rest branch (some s1)).1 = .ok () := by
        unfold runCommitBatches at hok
        dsimp only at hok
        rw [hh] at hok
        dsimp only at hok
        rw [hs1] at hok
        exact hok
      simp only [runCommitBatches]
      try dsimp only
      rw [hh]
      dsimp only
      rw [hs1]
      rw [List.flatten_cons] at hc
      rcases List.mem_append.mp hc with hcb | hcr
      · have h1 : isCommitProcessed (some s1) c = true := by
          rw [← hs1]
          exact runCommitBatch_ok_marks env patterns opts b branch s hh c hcb
        exact runCommitBatches_commit_mono env patterns opts rest branch (some s1) c h1
      · exact ih s1 hokt c hcr

/-- C2 (amended): a failed branch outcome always carries an empty
`commits` list, and the failure rolls back no marks — every commit
marked processed at branch start remains marked in the final state (the
counterexample instantiates this for a commit exported during the run,
so the field understates the exported set).  A successful outcome's
`commits` field equals exactly the fetched commit list filtered to the
commits not yet processed at branch start — empty on the incremental
skip path, where nothing is fetched — and every listed commit was
unprocessed at start and is marked processed in the final state. -/
theorem C2_amended_commits_field (env : GitEnv) (patterns : List SecretPattern)
    (opts : Options) (concurrency : Nat) (branch : String) (forceUpdate : Bool)
    (s0 : IncrementalState) (hc : 0 < concurrency) :
    ((processBranch env patterns opts concurrency branch forceUpdate (some s0)).1.success
        = false →
      (processBranch env patterns opts concurrency branch forceUpdate (some s0)).1.commits
        = []
      ∧ ∀ c, isCommitProcessed (some s0) c = true →
          isCommitProcessed
              (processBranch env patterns opts concurrency branch forceUpdate (some s0)).2.1 c
            = true)
    ∧ ((processBranch env patterns opts concurrency branch forceUpdate (some s0)).1.success
        = true →
      (∀ c ∈ (processBranch env patterns opts concurrency branch forceUpdate
          (some s0)).1.commits,
        isCommitProcessed
            (processBranch env patterns opts concurrency branch forceUpdate (some s0)).2.1 c
          = true
        ∧ isCommitProcessed (some s0) c = false)
      ∧ (shouldSkipBranch (some s0) branch forceUpdate = true
          ∧ (processBranch env patterns opts concurrency branch forceUpdate
              (some s0)).1.commits = []
        ∨ ∃ allCommits,
            env.commitsOfBranch branch opts.commitsPerBranch = .ok allCommits
            ∧ (processBranch env patterns opts concurrency branch forceUpdate
                (some s0)).1.commits
              = getUnprocessedCommits (some s0) allCommits)) := by
  unfold processBranch
  dsimp only
  split
  · rename_i hskip
    exact ⟨fun h => absurd h (by simp),
      fun _ => ⟨fun c hc0 => absurd hc0 (by simp), Or.inl ⟨hskip, rfl⟩⟩⟩
  · split
    · exact ⟨fun _ => ⟨rfl, fun c h => h⟩, fun h => absurd h (by simp)⟩
    · rename_i allCommits heqFetch
      split
      · rename_i hEmpty
        refine ⟨fun h => absurd h (by simp),
          fun _ => ⟨fun c hc0 => absurd hc0 (by simp),
            Or.inr ⟨allCommits, heqFetch, ?_⟩⟩⟩
        dsimp only
        exact (List.isEmpty_iff.mp hEmpty).symm
      · split
        · exact ⟨fun _ => ⟨rfl, fun c h => h⟩, fun h => absurd h (by simp)⟩
        · split
          all_goals rename_i u hrun
          · refine ⟨fun _ => ⟨rfl, fun c h => ?_⟩, fun h => absurd h (by simp)⟩
            dsimp only
            exact runCommitBatches_commit_mono env patterns opts _ branch (some s0) c h
          · refine ⟨fun h => absurd h (by simp),
              fun _ => ⟨fun c hc0 => ⟨?_, ?_⟩, Or.inr ⟨allCommits, heqFetch, rfl⟩⟩⟩
            · dsimp only
              rw [isCommitProcessed_markBranch]
              have hmin : 0 < min 10 concurrency := Nat.lt_min.mpr ⟨by decide, hc⟩
              dsimp only at hc0
              exact runCommitBatches_ok_marks env patterns opts _ branch s0 hrun c
                (by rw [chunkArray_flatten _ _ hmin]; exact hc0)
            · dsimp only at hc0
              unfold getUnprocessedCommits at hc0
              dsimp only at hc0
              have hf := (List.mem_filter.mp hc0).2
              simpa [isCommitProcessed] using hf

/-- Counterexample for C2 as stated: with two fresh commits where the
diff fetch of the second fails, the branch outcome is a failure with an
empty `commits` list although the first commit was exported and remains
marked processed — the field does not equal the set of commits actually
exported this run. -/
theorem C2_counterexample_failed_branch_empty_commits :
    (processBranch failPatchEnv [] baseOpts 4 ("main") false initialMState).1.success = false
    ∧ (processBranch failPatchEnv [] baseOpts 4 ("main") false initialMState).1.commits = []
    ∧ (processBranch failPatchEnv [] baseOpts 4 ("main") false
        initialMState).1.error = some ("boom")
    ∧ isCommitProcessed
        (processBranch failPatchEnv [] baseOpts 4 ("main") false initialMState).2.1 ("c1")
      = true
    ∧ isCommitProcessed initialMState ("c1") = false :=
  ⟨rfl, rfl, rfl, rfl, rfl⟩

/-- Witness for C2 (amended): a successful branch lists exactly its two
fresh commits — the fetched list filtered by the (empty) processed set —
both marked processed afterwards and unprocessed before. -/
theorem C2_witness :
    (0 : Nat) < 4
    ∧ (processBranch baseEnv [] baseOpts 4 ("main") false
        (some (getInitialState 0))).1.success = true
    ∧ (processBranch baseEnv [] baseOpts 4 ("main") false
        (some (getInitialState 0))).1.commits
        = getUnprocessedCommits (some (getInitialState 0)) (["c1", "c2"])
    ∧ (processBranch baseEnv [] baseOpts 4 ("main") false
        (some (getInitialState 0))).1.commits = ["c1", "c2"]
    ∧ isCommitProcessed (processBranch baseEnv [] baseOpts 4 ("main") false
        (some (getInitialState 0))).2.1 ("c1") = true
    ∧ isCommitProcessed (some (getInitialState 0)) ("c1") = false := by
  have main := C2_amended_commits_field baseEnv [] baseOpts 4 ("main") false
    (getInitialState 0) (by decide)
  have hm := (main.2 rfl).1 ("c1") (by decide)
  have heq : (processBranch baseEnv [] baseOpts 4 ("main") false
      (some (getInitialState 0))).1.commits
      = getUnprocessedCommits (some (getInitialState 0)) (["c1", "c2"]) := by
    rcases (main.2 rfl).2 with ⟨hskip, _⟩ | ⟨allCommits, hfetch, heqc⟩
    · exact absurd hskip (by decide)
    · have hall : allCommits = ["c1", "c2"] := by
        have h2 : (Except.ok (["c1", "c2"]) : Except String (List String))
            = Except.ok allCommits := hfetch
        exact (Except.ok.inj h2).symm
      rw [heqc, hall]
  exact ⟨by decide, rfl, heq, rfl, hm.1, hm.2⟩

end Gllm
